import Mathlib

/-
Verification development for youtube_metrics_collector.py.

The Python source is shallowly embedded below:
* Python dicts (which preserve insertion order) are association lists
  `List (String × α)` with `dictSet` / `dictFind` / `dictContains`.
  A Python dict never holds two entries with the same key, and assignment
  replaces the value in place (keeping insertion position) or appends a
  fresh entry at the end; `dictSet` does exactly that.
* The pure URL-parsing helpers (`re.search` for the shorts pattern,
  `urllib.parse.urlparse`, `urllib.parse.parse_qs`) are embedded as
  executable functions over `List Char`.
* The remote YouTube service is an oracle parameter: one response per
  issued request, indexed by request number, either a list of item
  records or an HTTP error (status code and body).
-/

set_option maxHeartbeats 1000000

/-- Python dict lookup: the entry with the given key, if present. -/
def dictFind {α : Type} (m : List (String × α)) (k : String) : Option α :=
  (m.find? (fun p => p.1 == k)).map (fun p => p.2)

/-- Python `k in d`. -/
def dictContains {α : Type} (m : List (String × α)) (k : String) : Bool :=
  m.any (fun p => p.1 == k)

/-- Python `d[k] = v`: replace the value in place if the key is present
(keeping its insertion position), otherwise append a new entry. -/
def dictSet {α : Type} : List (String × α) → String → α → List (String × α)
  | [], k, v => [(k, v)]
  | p :: t, k, v => if p.1 = k then (k, v) :: t else p :: dictSet t k v

/-- The keys of a dict, in insertion order. -/
def dictKeys {α : Type} (m : List (String × α)) : List String :=
  m.map (fun p => p.1)

theorem dictContains_eq_isSome {α : Type} (m : List (String × α)) (k : String) :
    dictContains m k = (dictFind m k).isSome := by
  induction m with
  | nil => rfl
  | cons p t ih =>
    by_cases h : p.1 = k
    · have hb : (p.1 == k) = true := beq_iff_eq.mpr h
      simp [dictContains, dictFind, List.find?, List.any, hb]
    · have hb : (p.1 == k) = false := by simp [h]
      simp only [dictContains, List.any, dictFind, List.find?, hb] at ih ⊢
      simpa [dictContains, dictFind] using ih

theorem dictFind_dictSet {α : Type} (m : List (String × α)) (k : String) (v : α) (x : String) :
    dictFind (dictSet m k v) x = if x = k then some v else dictFind m x := by
  induction m with
  | nil =>
    by_cases h : x = k
    · have hb : (k == x) = true := beq_iff_eq.mpr h.symm
      simp [dictSet, dictFind, List.find?, hb, h]
    · have hb : (k == x) = false := by simp; exact fun h2 => h h2.symm
      simp [dictSet, dictFind, List.find?, hb, h]
  | cons p t ih =>
    by_cases hp : p.1 = k
    · by_cases hx : x = k
      · have hb : (k == x) = true := beq_iff_eq.mpr hx.symm
        simp [dictSet, dictFind, List.find?, hp, hb, hx]
      · have hb : (k == x) = false := by simp; exact fun h2 => hx h2.symm
        have hpb : (p.1 == x) = false := by simp [hp]; exact fun h2 => hx h2.symm
        simp [dictSet, dictFind, List.find?, hp, hb, hpb, hx]
    · by_cases hpx : p.1 = x
      · have hxk : ¬ x = k := by rw [← hpx]; exact hp
        have hpb : (p.1 == x) = true := beq_iff_eq.mpr hpx
        simp [dictSet, dictFind, List.find?, hp, hpb, hxk]
      · have hpb : (p.1 == x) = false := by simp [hpx]
        have hstep : dictFind (dictSet (p :: t) k v) x = dictFind (dictSet t k v) x := by
          simp [dictSet, hp, dictFind, List.find?, hpb]
        have hstep2 : dictFind (p :: t) x = dictFind t x := by
          simp [dictFind, List.find?, hpb]
        rw [hstep, hstep2, ih]

theorem dictFind_dictSet_self {α : Type} (m : List (String × α)) (k : String) (v : α) :
    dictFind (dictSet m k v) k = some v := by
  simp [dictFind_dictSet]

theorem dictFind_dictSet_ne {α : Type} (m : List (String × α)) (k : String) (v : α)
    (x : String) (h : ¬ x = k) :
    dictFind (dictSet m k v) x = dictFind m x := by
  simp [dictFind_dictSet, h]

theorem dictKeys_dictSet {α : Type} (m : List (String × α)) (k : String) (v : α) :
    dictKeys (dictSet m k v) =
      if dictContains m k then dictKeys m else dictKeys m ++ [k] := by
  induction m with
  | nil => simp [dictSet, dictKeys, dictContains]
  | cons p t ih =>
    by_cases hp : p.1 = k
    · have hb : (p.1 == k) = true := beq_iff_eq.mpr hp
      simp [dictSet, dictKeys, dictContains, List.any, hp, hb]
    · have hb : (p.1 == k) = false := by simp [hp]
      have hcons : dictContains (p :: t) k = dictContains t k := by
        simp [dictContains, List.any, hb]
      have hset : dictSet (p :: t) k v = p :: dictSet t k v := by simp [dictSet, hp]
      rw [hset, hcons]
      by_cases hc : dictContains t k = true <;>
        simp [hc, dictKeys] at ih ⊢ <;> exact ih

theorem mem_dictKeys {α : Type} (m : List (String × α)) (x : String) :
    x ∈ dictKeys m ↔ dictContains m x = true := by
  simp [dictKeys, dictContains, List.any_eq_true, List.mem_map]

theorem dictKeys_nodup_dictSet {α : Type} (m : List (String × α)) (k : String) (v : α)
    (h : (dictKeys m).Nodup) : (dictKeys (dictSet m k v)).Nodup := by
  rw [dictKeys_dictSet]
  by_cases hc : dictContains m k = true
  · simp [hc, h]
  · simp only [hc, ite_false, Bool.false_eq_true]
    refine List.Nodup.append h (List.nodup_singleton k) ?_
    intro a ha hb
    rw [List.mem_singleton] at hb
    subst hb
    exact absurd ((mem_dictKeys m a).mp ha) (by simp [hc])

theorem dictFind_value_cases {α : Type} (m : List (String × α)) (k : String) (v : α)
    (x : String) (w : α) (h : dictFind (dictSet m k v) x = some w) :
    w = v ∨ dictFind m x = some w := by
  rw [dictFind_dictSet] at h
  by_cases hx : x = k <;> simp [hx] at h
  · exact Or.inl h.symm
  · exact Or.inr h

/-
URL parsing (extract_video_id, lines 73-105 of the source).

The source tries, in order:
1. re.search(r'/shorts/([a-zA-Z0-9_-]+)', url) — leftmost occurrence of
   the literal "/shorts/" followed by at least one character of the class
   [a-zA-Z0-9_-]; the capture is the maximal run of such characters.
2. 'youtu.be/' in url — urlparse(url).path stripped of '/' characters,
   None if that is empty.
3. 'youtube.com/watch' in url — first value of the 'v' query parameter
   per urllib.parse.parse_qs, None if absent.
-/

/-- The regex character class [a-zA-Z0-9_-] (ASCII letters and digits,
underscore, hyphen). -/
def isIdChar (c : Char) : Bool := c.isAlphanum || c == '_' || c == '-'

/-- Embedding of re.search(r'/shorts/([a-zA-Z0-9_-]+)', url): scan left to
right for a position where the literal "/shorts/" is followed by at least
one identifier character, and capture the maximal run of identifier
characters there. -/
def shortsCapture : List Char → Option (List Char)
  | [] => none
  | c :: cs =>
    if ("/shorts/".data).isPrefixOf (c :: cs) then
      let run := ((c :: cs).drop 8).takeWhile isIdChar
      if run.isEmpty then shortsCapture cs else some run
    else shortsCapture cs

/-- Python substring containment: containsChars pat s means pat occurs in s. -/
def containsChars (pat : List Char) : List Char → Bool
  | [] => pat.isEmpty
  | c :: tail => pat.isPrefixOf (c :: tail) || containsChars pat tail

/-- Python `pat in s` on strings. -/
def containsStr (s pat : String) : Bool := containsChars pat.data s.data

/-- Split a character list at the first occurrence of sep (sep removed);
none when sep does not occur. Used to model str.find / str.split(c, 1). -/
def splitFirst (sep : Char) : List Char → Option (List Char × List Char)
  | [] => none
  | c :: rest =>
    if c == sep then some ([], rest)
    else (splitFirst sep rest).map (fun p => (c :: p.1, p.2))

/-- Value of an ASCII hex digit, as accepted by urllib's _hextobyte table. -/
def hexDigitVal? (c : Char) : Option Nat :=
  if '0' ≤ c ∧ c ≤ '9' then some (c.toNat - 48)
  else if 'a' ≤ c ∧ c ≤ 'f' then some (c.toNat - 87)
  else if 'A' ≤ c ∧ c ≤ 'F' then some (c.toNat - 55)
  else none

/-- The UTF-8 replacement character U+FFFD. -/
def replChar : Char := Char.ofNat 0xFFFD

/-- A UTF-8 continuation byte 0x80-0xBF. -/
def contByte (b : Nat) : Bool := 128 ≤ b && b ≤ 191

/-- Embedding of bytes.decode('utf-8', errors='replace') as used by
urllib.parse.unquote: each maximal subpart of an ill-formed sequence is
replaced by one U+FFFD, per the W3C/Unicode policy CPython implements. -/
def utf8DecodeReplace : List Nat → List Char
  | [] => []
  | b :: bs =>
    if b ≤ 127 then Char.ofNat b :: utf8DecodeReplace bs
    else if 194 ≤ b && b ≤ 223 then
      match bs with
      | [] => [replChar]
      | c1 :: bs1 =>
        if contByte c1 then
          Char.ofNat ((b - 192) * 64 + (c1 - 128)) :: utf8DecodeReplace bs1
        else replChar :: utf8DecodeReplace (c1 :: bs1)
    else if 224 ≤ b && b ≤ 239 then
      match bs with
      | [] => [replChar]
      | c1 :: bs1 =>
        if (if b = 224 then 160 else 128) ≤ c1 && c1 ≤ (if b = 237 then 159 else 191) then
          match bs1 with
          | [] => [replChar]
          | c2 :: bs2 =>
            if contByte c2 then
              Char.ofNat ((b - 224) * 4096 + (c1 - 128) * 64 + (c2 - 128)) ::
                utf8DecodeReplace bs2
            else replChar :: utf8DecodeReplace (c2 :: bs2)
        else replChar :: utf8DecodeReplace (c1 :: bs1)
    else if 240 ≤ b && b ≤ 244 then
      match bs with
      | [] => [replChar]
      | c1 :: bs1 =>
        if (if b = 240 then 144 else 128) ≤ c1 && c1 ≤ (if b = 244 then 143 else 191) then
          match bs1 with
          | [] => [replChar]
          | c2 :: bs2 =>
            if contByte c2 then
              match bs2 with
              | [] => [replChar]
              | c3 :: bs3 =>
                if contByte c3 then
                  Char.ofNat ((b - 240) * 262144 + (c1 - 128) * 4096 +
                    (c2 - 128) * 64 + (c3 - 128)) :: utf8DecodeReplace bs3
                else replChar :: utf8DecodeReplace (c3 :: bs3)
            else replChar :: utf8DecodeReplace (c2 :: bs2)
        else replChar :: utf8DecodeReplace (c1 :: bs1)
    else replChar :: utf8DecodeReplace bs

/-- Embedding of urllib.parse.unquote(string, encoding='utf-8',
errors='replace'): maximal runs of %XX hex escapes are percent-decoded to
bytes and UTF-8-decoded with replacement; a '%' not followed by two hex
digits is literal. The accumulator holds the pending byte run in reverse. -/
def unquoteScan : List Char → List Nat → List Char
  | [], acc => utf8DecodeReplace acc.reverse
  | '%' :: a :: b :: rest, acc =>
    match hexDigitVal? a, hexDigitVal? b with
    | some hi, some lo => unquoteScan rest ((hi * 16 + lo) :: acc)
    | _, _ =>
      utf8DecodeReplace acc.reverse ++ '%' :: unquoteScan (a :: b :: rest) []
  | c :: rest, acc => utf8DecodeReplace acc.reverse ++ c :: unquoteScan rest []

/-- urllib.parse.unquote with the defaults used by parse_qs. -/
def unquote (s : String) : String := String.mk (unquoteScan s.data [])

/-- The '+'-to-space replacement parse_qsl applies before unquoting. -/
def plusToSpace (s : String) : String :=
  String.mk (s.data.map (fun c => if c == '+' then ' ' else c))

/-- Python str.split with a one-character separator: every occurrence of
sep starts a new piece; an empty string yields one empty piece. -/
def splitOnChar (sep : Char) : List Char → List (List Char)
  | [] => [[]]
  | c :: rest =>
    let r := splitOnChar sep rest
    if c == sep then [] :: r
    else
      match r with
      | [] => [[c]]
      | h :: t => (c :: h) :: t

/-- Embedding of urllib.parse.parse_qsl with default arguments: split the
query on '&'; skip empty pairs, pairs without '=', and pairs with an empty
value (keep_blank_values is False); '+' becomes space and %XX escapes are
decoded in both name and value. -/
def parse_qsl (qs : String) : List (String × String) :=
  (splitOnChar '&' qs.data).foldl
    (fun r nv =>
      if nv.isEmpty then r
      else
        match splitFirst '=' nv with
        | none => r
        | some (n, v) =>
          if v.isEmpty then r
          else r ++ [(unquote (plusToSpace (String.mk n)), unquote (plusToSpace (String.mk v)))])
    []

/-- Embedding of urllib.parse.parse_qs with default arguments: group the
parse_qsl pairs into a dict of value lists, preserving order. -/
def parse_qs (qs : String) : List (String × List String) :=
  (parse_qsl qs).foldl
    (fun d p =>
      match dictFind d p.1 with
      | some vs => dictSet d p.1 (vs ++ [p.2])
      | none => dictSet d p.1 [p.2])
    []

/-- The result record of urllib.parse.urlparse. -/
structure UrlParts where
  scheme : String
  netloc : String
  path : String
  params : String
  query : String
  fragment : String
  deriving Repr, DecidableEq

/-- Characters allowed in a URL scheme after the first letter. -/
def isSchemeChar (c : Char) : Bool := c.isAlphanum || c == '+' || c == '-' || c == '.'

/-- Embedding of urllib.parse._splitparams: the params component is what
follows the first ';' of the last path segment (the portion after the last
'/', or the whole path if there is no '/'). Only called when ';' occurs. -/
def urlSplitParams (p : List Char) : List Char × List Char :=
  if '/' ∈ p then
    let after := (p.reverse.takeWhile (fun c => !(c == '/'))).reverse
    let before := p.take (p.length - after.length)
    match splitFirst ';' after with
    | some (a, b) => (before ++ a, b)
    | none => (p, [])
  else
    match splitFirst ';' p with
    | some (a, b) => (a, b)
    | none => (p, [])

/-- Embedding of urllib.parse.urlparse: left-strip C0 controls and spaces,
drop tab/CR/LF everywhere, then split off scheme (letter followed by scheme
characters, before the first ':'), netloc (after a leading "//", up to the
first of '/', '?', '#'), fragment (after the first '#'), query (after the
first '?'), and params (from the last path segment). Netloc bracket
validation is omitted: it can only raise for URLs with '[' or ']'. -/
def urlparse (url : String) : UrlParts :=
  let u0 := url.data.dropWhile (fun c => c.toNat ≤ 32)
  let u1 := u0.filter (fun c => !(c == Char.ofNat 9) && !(c == Char.ofNat 13) &&
    !(c == Char.ofNat 10))
  let sr :=
    match splitFirst ':' u1 with
    | some (pre, post) =>
      match pre with
      | [] => (([] : List Char), u1)
      | c :: cs =>
        if c.isAlpha && (c :: cs).all isSchemeChar then ((c :: cs).map Char.toLower, post)
        else ([], u1)
    | none => ([], u1)
  let notStop := fun (c : Char) => !(c == '/') && !(c == '?') && !(c == '#')
  let nr :=
    if ("//".data).isPrefixOf sr.2 then
      ((sr.2.drop 2).takeWhile notStop, (sr.2.drop 2).dropWhile notStop)
    else ([], sr.2)
  let fr :=
    match splitFirst '#' nr.2 with
    | some (a, b) => (a, b)
    | none => (nr.2, ([] : List Char))
  let qr :=
    match splitFirst '?' fr.1 with
    | some (a, b) => (a, b)
    | none => (fr.1, ([] : List Char))
  let pp := if ';' ∈ qr.1 then urlSplitParams qr.1 else (qr.1, ([] : List Char))
  ⟨String.mk sr.1, String.mk nr.1, String.mk pp.1, String.mk pp.2,
    String.mk qr.2, String.mk fr.2⟩

/-- Python str.strip('/'): drop '/' characters from both ends. -/
def stripSlashes (s : String) : String :=
  String.mk (((s.data.dropWhile (fun c => c == '/')).reverse.dropWhile
    (fun c => c == '/')).reverse)

/-- The youtu.be branch of extract_video_id (source lines 94-97): the URL
path stripped of '/' characters, or None when that is empty. -/
def youtuBeRule (url : String) : Option String :=
  let vid := stripSlashes (urlparse url).path
  if vid = "" then none else some vid

/-- The watch branch of extract_video_id (source lines 100-103): the first
value of the 'v' query parameter, or None when 'v' is absent. -/
def watchRule (url : String) : Option String :=
  (dictFind (parse_qs (urlparse url).query) "v").bind (fun vs => vs.head?)

/-- Embedding of extract_video_id (source lines 73-105). -/
def extract_video_id (url : String) : Option String :=
  match shortsCapture url.data with
  | some run => some (String.mk run)
  | none =>
    if containsStr url "youtu.be/" then youtuBeRule url
    else if containsStr url "youtube.com/watch" then watchRule url
    else none

/-
Batch metrics fetcher (get_video_metrics, lines 112-198 of the source).

The remote service is an oracle `api : Nat → List String → ApiResult`
giving the response to the i-th issued request (the Python client calls
`youtube.videos().list(...).execute()` once per batch; indexing responses
by request number captures that distinct calls may behave differently).
A fetched item record carries the optional sub-fields the source reads;
a sub-record that is absent in the JSON response is represented by all of
its fields being `none` (the source reads them with .get and a default,
so this is observationally identical).
-/

/-- The snippet sub-record of a response item (item['snippet'] is accessed
unconditionally by the source, so it is not optional). -/
structure Snippet where
  title : Option String
  channelTitle : Option String
  publishedAt : Option String
  deriving Repr, DecidableEq

/-- The statistics sub-record (item.get('statistics', {})). -/
structure Statistics where
  viewCount : Option String
  likeCount : Option String
  commentCount : Option String
  deriving Repr, DecidableEq

/-- The contentDetails sub-record (item.get('contentDetails', {})). -/
structure ContentDetails where
  duration : Option String
  deriving Repr, DecidableEq

/-- One item of a successful videos().list response. -/
structure Item where
  id : String
  snippet : Snippet
  statistics : Statistics
  contentDetails : ContentDetails
  deriving Repr, DecidableEq

/-- Outcome of one remote request: the item list of a successful response,
or an HttpError with status code and decoded error body. -/
inductive ApiResult where
  | ok (items : List Item)
  | error (status : Nat) (content : String)
  deriving Repr, DecidableEq

/-- The per-video metrics record stored in the result dict (source lines
154-163: seven data fields, plus the error field which is None on
success). -/
structure Metrics where
  title : String
  channel_name : String
  upload_date : String
  view_count : String
  like_count : String
  comment_count : String
  duration : String
  error : Option String
  deriving Repr, DecidableEq

/-- The metrics record built from a returned item (source lines 154-163):
each missing field defaults to "N/A" (text) or "0" (counts). -/
def successOutcome (it : Item) : Metrics :=
  { title := it.snippet.title.getD "N/A"
    channel_name := it.snippet.channelTitle.getD "N/A"
    upload_date := it.snippet.publishedAt.getD "N/A"
    view_count := it.statistics.viewCount.getD "0"
    like_count := it.statistics.likeCount.getD "0"
    comment_count := it.statistics.commentCount.getD "0"
    duration := it.contentDetails.duration.getD "N/A"
    error := none }

/-- The record stored for an identifier the response omitted (source lines
169-178). -/
def notFoundOutcome : Metrics :=
  { title := "N/A", channel_name := "N/A", upload_date := "N/A"
    view_count := "0", like_count := "0", comment_count := "0"
    duration := "N/A"
    error := some "Video not found (may be deleted or private)" }

/-- The record stored for an identifier of a batch whose request raised
HttpError (source lines 182-196). -/
def errorOutcome (status : Nat) (content : String) : Metrics :=
  { title := "N/A", channel_name := "N/A", upload_date := "N/A"
    view_count := "0", like_count := "0", comment_count := "0"
    duration := "N/A"
    error := some ("API Error: " ++ toString status ++ " - " ++ content) }

/-- Chunking with explicit fuel so that the definition is structurally
recursive (the fuel is the list length, which bounds the chunk count). -/
def chunksFuel (n : Nat) : Nat → List String → List (List String)
  | 0, _ => []
  | _, [] => []
  | fuel + 1, x :: xs => ((x :: xs).take n) :: chunksFuel n fuel ((x :: xs).drop n)

/-- The consecutive batches of at most n elements the source loop
`for i in range(0, len(video_ids), batch_size)` slices out. -/
def pyChunks (n : Nat) (l : List String) : List (List String) :=
  chunksFuel n l.length l

/-- Processing of one batch with its response (the body of the source
loop, lines 137-196): on success, store a record per returned item (in
response order), then store a not-found record for every batch identifier
absent from the response; on HttpError, store an error record for every
batch identifier not already present in the results. -/
def processChunk (res : List (String × Metrics)) (batch : List String)
    (r : ApiResult) : List (String × Metrics) :=
  match r with
  | ApiResult.ok items =>
    let afterItems := items.foldl (fun m it => dictSet m it.id (successOutcome it)) res
    let returned := items.map (fun it => it.id)
    batch.foldl
      (fun m vid => if vid ∈ returned then m else dictSet m vid notFoundOutcome)
      afterItems
  | ApiResult.error status content =>
    batch.foldl
      (fun m vid => if dictContains m vid then m else dictSet m vid (errorOutcome status content))
      res

/-- The result of a fetch run: the metrics dict plus the trace of issued
requests (one entry per execute() call, in order). -/
structure FetchResult where
  results : List (String × Metrics)
  requests : List (List String)
  deriving Repr, DecidableEq

/-- The chunk loop of get_video_metrics: process the remaining batches,
issuing request number i for the first of them. -/
def runFrom (api : Nat → List String → ApiResult) :
    Nat → List (List String) → List (String × Metrics) → FetchResult
  | _, [], res => ⟨res, []⟩
  | i, b :: bs, res =>
    let rest := runFrom api (i + 1) bs (processChunk res b (api i b))
    ⟨rest.results, b :: rest.requests⟩

/-- Embedding of get_video_metrics (source lines 112-198): slice the input
into batches of 50 and fold processChunk over them, starting from the
empty dict. -/
def get_video_metrics (video_ids : List String)
    (api : Nat → List String → ApiResult) : FetchResult :=
  runFrom api 0 (pyChunks 50 video_ids) []

/-- The remote contract assumed of the service: a successful response only
contains items for identifiers that were requested (the real service
answers videos().list(id=...) with records for recognized ids among those
requested, silently omitting the rest). -/
def apiOK (api : Nat → List String → ApiResult) : Prop :=
  ∀ i batch items, api i batch = ApiResult.ok items → ∀ it ∈ items, it.id ∈ batch

/-- The record a successful response stores for a batch identifier: the
last returned item with that id wins (the item loop overwrites), and a
batch identifier with no returned item gets the not-found record. -/
def okOutcome (items : List Item) (batch : List String) (x : String) : Option Metrics :=
  match items.reverse.find? (fun it => it.id == x) with
  | some it => some (successOutcome it)
  | none => if x ∈ batch then some notFoundOutcome else none

/-- The record a chunk stores for one of its identifiers when the
identifier is not yet present in the results. -/
def chunkOutcome (r : ApiResult) (batch : List String) (x : String) : Option Metrics :=
  match r with
  | ApiResult.ok items => okOutcome items batch x
  | ApiResult.error status content => some (errorOutcome status content)

/-
Main pipeline (read_api_key lines 36-66, read_input_csv lines 205-230,
main lines 272-359). File I/O (the CSV reader/writer, the key file) is an
external collaborator: mainModel takes the key file content (none when
the file is missing) and the already-parsed input rows, and returns the
observable outcome of the run. Python specifics preserved:
* main catches FileNotFoundError/ValueError from read_api_key and simply
  returns, so the interpreter exits with status 0; read_api_key prints a
  message in the missing-file case only (the empty-key ValueError is
  swallowed silently by main).
* write_output_csv writes no file when the data list is empty.
* the output rows are sorted ascending by the upload_date string; Python
  list.sort is stable, so the result equals a stable insertion sort.
-/

/-- One parsed input row: nickname (default "N/A") and url. -/
structure InputRecord where
  nickname : String
  url : String
  deriving Repr, DecidableEq

/-- One output row (source lines 324-336). -/
structure ReportRow where
  nickname : String
  title : String
  channel_name : String
  upload_date : String
  url : String
  video_id : String
  view_count : String
  like_count : String
  comment_count : String
  duration : String
  error : String
  deriving Repr, DecidableEq

/-- Failure modes of read_api_key: FileNotFoundError (reported to the
operator by a printed message) or ValueError for an empty key (raised
without printing). -/
inductive KeyError where
  | fileNotFound
  | emptyKey
  deriving Repr, DecidableEq

/-- Embedding of read_api_key (source lines 36-66): the file content is
none when the file is missing; the key is the content with surrounding
whitespace stripped (Python str.strip() removes Unicode whitespace; this
strip removes the ASCII whitespace characters, which agree on every key
file made of ASCII text), and an all-whitespace or empty content is an
error. The strip is spelled out so that it evaluates by rfl. -/
def pyStrip (s : String) : String :=
  String.mk (((s.data.dropWhile Char.isWhitespace).reverse.dropWhile
    Char.isWhitespace).reverse)

/-- Embedding of read_api_key continued: strip, then test emptiness. -/
def read_api_key (content : Option String) : Except KeyError String :=
  match content with
  | none => Except.error KeyError.fileNotFound
  | some s =>
    let api_key := pyStrip s
    if api_key = "" then Except.error KeyError.emptyKey else Except.ok api_key

/-- The row built for one metrics entry (source lines 321-336): original
nickname/url with "N/A" defaults when the identifier is missing from the
id map, and the error string defaulting to "". -/
def combineRow (idMap : List (String × InputRecord)) (vid : String) (m : Metrics) :
    ReportRow :=
  let orig := dictFind idMap vid
  { nickname := (orig.map (fun r => r.nickname)).getD "N/A"
    title := m.title
    channel_name := m.channel_name
    upload_date := m.upload_date
    url := (orig.map (fun r => r.url)).getD "N/A"
    video_id := vid
    view_count := m.view_count
    like_count := m.like_count
    comment_count := m.comment_count
    duration := m.duration
    error := m.error.getD "" }

/-- The ordering the source sorts the report by: the upload_date string,
ascending (Python string comparison is code-point lexicographic, as is
the String order used here). -/
def rowLE (a b : ReportRow) : Prop := a.upload_date ≤ b.upload_date

instance : DecidableRel rowLE := fun a b => by
  unfold rowLE
  infer_instance

/-- The report building step of main (source lines 320-341): one row per
entry of the metrics dict, in dict order, then sorted ascending by
upload_date. Python list.sort is stable and a total preorder has a unique
stable sort, so the stable insertion sort used here produces exactly the
list Python produces. -/
def build_report (metrics : List (String × Metrics))
    (idMap : List (String × InputRecord)) : List ReportRow :=
  List.insertionSort rowLE (metrics.map (fun p => combineRow idMap p.1 p.2))

/-- The identifier-extraction loop of main (source lines 296-306): build
the id-to-row map (later rows overwrite) and the identifier list, skipping
rows whose URL yields no identifier. -/
def extractPhase (videos : List InputRecord) :
    List (String × InputRecord) × List String :=
  videos.foldl
    (fun acc v =>
      match extract_video_id v.url with
      | some vid => (dictSet acc.1 vid v, acc.2 ++ [vid])
      | none => acc)
    ([], [])

/-- The observable outcome of one run of main. -/
structure RunResult where
  exitCode : Nat
  configErrorReported : Bool
  requests : List (List String)
  output : Option (List ReportRow)
  deriving Repr, DecidableEq

/-- Embedding of main (source lines 272-359): on a key error, main
returns (exit status 0), having printed a message only in the
missing-file case; with no resolvable identifiers, main returns cleanly
before any remote call; otherwise it fetches, joins, sorts, and writes
the output file (write_output_csv skips writing when the row list is
empty). -/
def mainModel (keyFile : Option String) (videos : List InputRecord)
    (api : Nat → List String → ApiResult) : RunResult :=
  match read_api_key keyFile with
  | Except.error KeyError.fileNotFound => ⟨0, true, [], none⟩
  | Except.error KeyError.emptyKey => ⟨0, false, [], none⟩
  | Except.ok _ =>
    let ext := extractPhase videos
    if ext.2.isEmpty then ⟨0, false, [], none⟩
    else
      let fr := get_video_metrics ext.2 api
      let rows := build_report fr.results ext.1
      ⟨0, false, fr.requests, if rows.isEmpty then none else some rows⟩

/-
Chunking lemmas: pyChunks 50 slices the identifier list exactly the way
the source loop `for i in range(0, len(video_ids), 50)` does.
-/

theorem chunksFuel_eq_of_le (n : Nat) (hn : 0 < n) :
    ∀ fuel fuel' (l : List String), l.length ≤ fuel → l.length ≤ fuel' →
      chunksFuel n fuel l = chunksFuel n fuel' l := by
  intro fuel
  induction fuel with
  | zero =>
    intro fuel' l hl hl'
    have : l = [] := List.length_eq_zero.mp (Nat.le_zero.mp hl)
    subst this
    cases fuel' <;> rfl
  | succ f ih =>
    intro fuel' l hl hl'
    cases l with
    | nil => cases fuel' <;> rfl
    | cons x xs =>
      cases fuel' with
      | zero => exact absurd hl' (by simp)
      | succ f' =>
        have hdrop : ((x :: xs).drop n).length ≤ f := by
          simp only [List.length_drop, List.length_cons] at hl ⊢
          omega
        have hdrop' : ((x :: xs).drop n).length ≤ f' := by
          simp only [List.length_drop, List.length_cons] at hl' ⊢
          omega
        simp only [chunksFuel]
        rw [ih f' ((x :: xs).drop n) hdrop hdrop']

theorem pyChunks_nil (n : Nat) : pyChunks n [] = [] := by
  simp [pyChunks, chunksFuel]

theorem pyChunks_cons (n : Nat) (hn : 0 < n) (x : String) (xs : List String) :
    pyChunks n (x :: xs) = ((x :: xs).take n) :: pyChunks n ((x :: xs).drop n) := by
  show chunksFuel n (x :: xs).length (x :: xs) = _
  simp only [List.length_cons, chunksFuel]
  rw [chunksFuel_eq_of_le n hn xs.length ((x :: xs).drop n).length ((x :: xs).drop n)
    (by simp; omega) (le_refl _)]
  rfl

theorem flatten_pyChunks (n : Nat) (hn : 0 < n) (l : List String) :
    (pyChunks n l).flatten = l := by
  have key : ∀ fuel (l : List String), l.length ≤ fuel →
      (chunksFuel n fuel l).flatten = l := by
    intro fuel
    induction fuel with
    | zero =>
      intro l hl
      have : l = [] := List.length_eq_zero.mp (Nat.le_zero.mp hl)
      subst this
      rfl
    | succ f ih =>
      intro l hl
      cases l with
      | nil => rfl
      | cons x xs =>
        simp only [chunksFuel, List.flatten_cons]
        rw [ih ((x :: xs).drop n) (by simp at hl ⊢; omega)]
        exact List.take_append_drop n (x :: xs)
  exact key l.length l (le_refl _)

theorem length_pyChunks50 (l : List String) :
    (pyChunks 50 l).length = (l.length + 49) / 50 := by
  have key : ∀ fuel (l : List String), l.length ≤ fuel →
      (chunksFuel 50 fuel l).length = (l.length + 49) / 50 := by
    intro fuel
    induction fuel with
    | zero =>
      intro l hl
      have : l = [] := List.length_eq_zero.mp (Nat.le_zero.mp hl)
      subst this
      rfl
    | succ f ih =>
      intro l hl
      cases l with
      | nil => rfl
      | cons x xs =>
        simp only [chunksFuel, List.length_cons]
        rw [ih ((x :: xs).drop 50) (by simp at hl ⊢; omega)]
        simp only [List.length_drop, List.length_cons]
        omega
  exact key l.length l (le_refl _)

theorem mem_pyChunks50 (l : List String) (c : List String) (hc : c ∈ pyChunks 50 l) :
    c.length ≤ 50 ∧ c ≠ [] := by
  have key : ∀ fuel (l : List String), l.length ≤ fuel → c ∈ chunksFuel 50 fuel l →
      c.length ≤ 50 ∧ c ≠ [] := by
    intro fuel
    induction fuel with
    | zero =>
      intro l hl hc
      have : l = [] := List.length_eq_zero.mp (Nat.le_zero.mp hl)
      subst this
      simp [chunksFuel] at hc
    | succ f ih =>
      intro l hl hc
      cases l with
      | nil => simp [chunksFuel] at hc
      | cons x xs =>
        simp only [chunksFuel, List.mem_cons] at hc
        rcases hc with hc | hc
        · subst hc
          constructor
          · simp
          · simp
        · exact ih ((x :: xs).drop 50) (by simp at hl ⊢; omega) hc
  exact key l.length l (le_refl _) hc

/-- A generic foldl invariant-preservation helper. -/
theorem foldl_inv {α β : Type} (P : α → Prop) (f : α → β → α)
    (h : ∀ a b, P a → P (f a b)) :
    ∀ (l : List β) (a : α), P a → P (l.foldl f a) := by
  intro l
  induction l with
  | nil => intro a ha; exact ha
  | cons b t ih => intro a ha; exact ih (f a b) (h a b ha)

/-
Per-chunk dict-update lemmas: what each of the three write loops of
get_video_metrics stores for a given key.
-/

theorem dictFind_none_of_not_contains {α : Type} (m : List (String × α)) (x : String)
    (h : ¬ dictContains m x = true) : dictFind m x = none := by
  rw [dictContains_eq_isSome] at h
  exact Option.not_isSome_iff_eq_none.mp h

theorem find_itemsFold (items : List Item) (res : List (String × Metrics)) (x : String) :
    dictFind (items.foldl (fun m it => dictSet m it.id (successOutcome it)) res) x =
      match items.reverse.find? (fun it => it.id == x) with
      | some it => some (successOutcome it)
      | none => dictFind res x := by
  induction items generalizing res with
  | nil => rfl
  | cons it rest ih =>
    simp only [List.foldl_cons, List.reverse_cons, List.find?_append]
    rw [ih]
    rcases h : List.find? (fun it => it.id == x) rest.reverse with _ | it'
    · simp only [h, Option.none_or]
      by_cases hx : it.id = x
      · have hb : (it.id == x) = true := beq_iff_eq.mpr hx
        simp only [List.find?, hb]
        rw [← hx, dictFind_dictSet_self]
      · have hb : (it.id == x) = false := by simp [hx]
        simp only [List.find?, hb]
        exact dictFind_dictSet_ne _ _ _ _ (fun h2 => hx h2.symm)
    · rw [h]
      rfl

theorem find_nfFold (batch : List String) (ret : List String)
    (res : List (String × Metrics)) (x : String) :
    dictFind (batch.foldl
        (fun m vid => if vid ∈ ret then m else dictSet m vid notFoundOutcome) res) x =
      if x ∈ batch ∧ x ∉ ret then some notFoundOutcome else dictFind res x := by
  induction batch generalizing res with
  | nil => simp
  | cons v rest ih =>
    simp only [List.foldl_cons]
    rw [ih]
    by_cases hmem : x ∈ rest ∧ x ∉ ret
    · rw [if_pos hmem, if_pos ⟨List.mem_cons_of_mem v hmem.1, hmem.2⟩]
    · rw [if_neg hmem]
      by_cases hxv : x = v
      · subst hxv
        by_cases hx : x ∈ ret
        · have hc : ¬ (x ∈ x :: rest ∧ x ∉ ret) := fun hcc => hcc.2 hx
          rw [if_pos hx, if_neg hc]
        · have hc : x ∈ x :: rest ∧ x ∉ ret := ⟨List.mem_cons_self x rest, hx⟩
          rw [if_neg hx, dictFind_dictSet_self, if_pos hc]
      · have hstep : dictFind (if v ∈ ret then res else dictSet res v notFoundOutcome) x
            = dictFind res x := by
          by_cases hv : v ∈ ret
          · rw [if_pos hv]
          · rw [if_neg hv]
            exact dictFind_dictSet_ne _ _ _ _ hxv
        rw [hstep]
        have hc : ¬ (x ∈ v :: rest ∧ x ∉ ret) := by
          rintro ⟨h1, h2⟩
          rcases List.mem_cons.mp h1 with h3 | h3
          · exact hxv h3
          · exact hmem ⟨h3, h2⟩
        rw [if_neg hc]

theorem find_errFold (batch : List String) (e : Metrics)
    (res : List (String × Metrics)) (x : String) :
    dictFind (batch.foldl
        (fun m vid => if dictContains m vid then m else dictSet m vid e) res) x =
      if x ∈ batch ∧ dictFind res x = none then some e else dictFind res x := by
  induction batch generalizing res with
  | nil => simp
  | cons v rest ih =>
    simp only [List.foldl_cons]
    by_cases hv : dictContains res v = true
    · rw [if_pos hv, ih]
      by_cases hmem : x ∈ rest ∧ dictFind res x = none
      · rw [if_pos hmem, if_pos ⟨List.mem_cons_of_mem v hmem.1, hmem.2⟩]
      · rw [if_neg hmem]
        have hc : ¬ (x ∈ v :: rest ∧ dictFind res x = none) := by
          rintro ⟨h1, h2⟩
          rcases List.mem_cons.mp h1 with h3 | h3
          · subst h3
            rw [dictContains_eq_isSome, h2] at hv
            exact Bool.noConfusion hv
          · exact hmem ⟨h3, h2⟩
        rw [if_neg hc]
    · rw [if_neg hv, ih]
      have hvn : dictFind res v = none := dictFind_none_of_not_contains res v hv
      by_cases hxv : x = v
      · subst hxv
        rw [dictFind_dictSet_self]
        have h1 : ¬ (x ∈ rest ∧ (some e : Option Metrics) = none) := by
          rintro ⟨h2, h3⟩
          exact Option.noConfusion h3
        rw [if_neg h1, if_pos ⟨List.mem_cons_self x rest, hvn⟩]
      · rw [dictFind_dictSet_ne _ _ _ _ hxv]
        by_cases hmem : x ∈ rest ∧ dictFind res x = none
        · rw [if_pos hmem, if_pos ⟨List.mem_cons_of_mem v hmem.1, hmem.2⟩]
        · rw [if_neg hmem]
          have hc : ¬ (x ∈ v :: rest ∧ dictFind res x = none) := by
            rintro ⟨h1, h2⟩
            rcases List.mem_cons.mp h1 with h3 | h3
            · exact hxv h3
            · exact hmem ⟨h3, h2⟩
          rw [if_neg hc]

/-
processChunk-level lemmas: the record stored for an identifier by one
chunk, and the fact that a chunk never touches identifiers outside its
batch (given that the service only returns requested identifiers).
-/

theorem find_processChunk_ok (res : List (String × Metrics)) (batch : List String)
    (items : List Item) (x : String) (hx : x ∈ batch) :
    dictFind (processChunk res batch (ApiResult.ok items)) x = okOutcome items batch x := by
  simp only [processChunk]
  rw [find_nfFold]
  rcases h : items.reverse.find? (fun it => it.id == x) with _ | it'
  · have hret : x ∉ items.map (fun it => it.id) := by
      intro hmem
      rcases List.mem_map.mp hmem with ⟨it, hit, hid⟩
      have h2 := List.find?_eq_none.mp h it (List.mem_reverse.mpr hit)
      rw [hid] at h2
      simp at h2
    rw [if_pos ⟨hx, hret⟩]
    unfold okOutcome
    rw [h]
    simp [hx]
  · have hpred := List.find?_some h
    have hid : it'.id = x := beq_iff_eq.mp hpred
    have hmem := List.mem_reverse.mp (List.mem_of_find?_eq_some h)
    have hret : x ∈ items.map (fun it => it.id) :=
      List.mem_map.mpr ⟨it', hmem, hid⟩
    have hc : ¬ (x ∈ batch ∧ x ∉ items.map (fun it => it.id)) := fun hcc => hcc.2 hret
    rw [if_neg hc, find_itemsFold, h]
    unfold okOutcome
    rw [h]

theorem find_processChunk_err (res : List (String × Metrics)) (batch : List String)
    (st : Nat) (c : String) (x : String) :
    dictFind (processChunk res batch (ApiResult.error st c)) x =
      if x ∈ batch ∧ dictFind res x = none then some (errorOutcome st c)
      else dictFind res x := by
  simp only [processChunk]
  exact find_errFold batch (errorOutcome st c) res x

theorem find_processChunk_skip (res : List (String × Metrics)) (batch : List String)
    (r : ApiResult) (x : String) (hx : x ∉ batch)
    (hsub : ∀ items, r = ApiResult.ok items → ∀ it ∈ items, it.id ∈ batch) :
    dictFind (processChunk res batch r) x = dictFind res x := by
  cases r with
  | ok items =>
    simp only [processChunk]
    rw [find_nfFold, if_neg (fun hc => hx hc.1), find_itemsFold]
    rcases h : items.reverse.find? (fun it => it.id == x) with _ | it'
    · rw [h]
    · have hpred := List.find?_some h
      have hid : it'.id = x := beq_iff_eq.mp hpred
      have hmem := List.mem_reverse.mp (List.mem_of_find?_eq_some h)
      exact absurd (hid ▸ hsub items rfl it' hmem) hx
  | error st c =>
    rw [find_processChunk_err, if_neg (fun hc => hx hc.1)]

theorem isSome_find_processChunk (res : List (String × Metrics)) (batch : List String)
    (r : ApiResult) (x : String) (hx : x ∈ batch) :
    (dictFind (processChunk res batch r) x).isSome = true := by
  cases r with
  | ok items =>
    rw [find_processChunk_ok res batch items x hx]
    unfold okOutcome
    rcases h : items.reverse.find? (fun it => it.id == x) with _ | it' <;> simp [h, hx]
  | error st c =>
    rw [find_processChunk_err]
    by_cases hc : dictFind res x = none
    · rw [if_pos ⟨hx, hc⟩]
      rfl
    · rw [if_neg (fun hcc => hc hcc.2)]
      exact Option.isSome_iff_ne_none.mpr hc

theorem isSome_find_processChunk_mono (res : List (String × Metrics)) (batch : List String)
    (r : ApiResult) (x : String) (hsome : (dictFind res x).isSome = true) :
    (dictFind (processChunk res batch r) x).isSome = true := by
  cases r with
  | ok items =>
    simp only [processChunk]
    rw [find_nfFold]
    by_cases hc : x ∈ batch ∧ x ∉ items.map (fun it => it.id)
    · rw [if_pos hc]
      rfl
    · rw [if_neg hc, find_itemsFold]
      rcases h : items.reverse.find? (fun it => it.id == x) with _ | it'
      · rw [h]
        exact hsome
      · rw [h]
        rfl
  | error st c =>
    rw [find_processChunk_err]
    by_cases hc : x ∈ batch ∧ dictFind res x = none
    · rw [if_pos hc]
      rfl
    · rw [if_neg hc]
      exact hsome

theorem keys_nodup_processChunk (res : List (String × Metrics)) (batch : List String)
    (r : ApiResult) (h : (dictKeys res).Nodup) :
    (dictKeys (processChunk res batch r)).Nodup := by
  cases r with
  | ok items =>
    simp only [processChunk]
    refine foldl_inv (fun m => (dictKeys m).Nodup) _ ?_ batch _
      (foldl_inv (fun m => (dictKeys m).Nodup) _ ?_ items res h)
    · intro m vid hm
      by_cases hv : vid ∈ items.map (fun it => it.id)
      · rw [if_pos hv]
        exact hm
      · rw [if_neg hv]
        exact dictKeys_nodup_dictSet m vid notFoundOutcome hm
    · intro m it hm
      exact dictKeys_nodup_dictSet m it.id (successOutcome it) hm
  | error st c =>
    simp only [processChunk]
    refine foldl_inv (fun m => (dictKeys m).Nodup) _ ?_ batch res h
    intro m vid hm
    by_cases hv : dictContains m vid = true
    · rw [if_pos hv]
      exact hm
    · rw [if_neg hv]
      exact dictKeys_nodup_dictSet m vid (errorOutcome st c) hm

/-
runFrom-level lemmas: requests issued, key set, and the record finally
stored for an identifier in terms of the chunks that contain it.
-/

theorem runFrom_requests (api : Nat → List String → ApiResult) :
    ∀ (cs : List (List String)) (i : Nat) (res : List (String × Metrics)),
      (runFrom api i cs res).requests = cs := by
  intro cs
  induction cs with
  | nil => intro i res; rfl
  | cons b bs ih =>
    intro i res
    show b :: (runFrom api (i + 1) bs (processChunk res b (api i b))).requests = b :: bs
    rw [ih]

theorem runFrom_results_append (api : Nat → List String → ApiResult)
    (l₁ l₂ : List (List String)) :
    ∀ (i : Nat) (res : List (String × Metrics)),
      (runFrom api i (l₁ ++ l₂) res).results =
        (runFrom api (i + l₁.length) l₂ (runFrom api i l₁ res).results).results := by
  induction l₁ with
  | nil => intro i res; rfl
  | cons b bs ih =>
    intro i res
    show (runFrom api (i + 1) (bs ++ l₂) (processChunk res b (api i b))).results = _
    rw [ih]
    have : i + 1 + bs.length = i + (b :: bs).length := by
      simp only [List.length_cons]
      omega
    rw [this]
    rfl

theorem find_runFrom_skip (api : Nat → List String → ApiResult) (hok : apiOK api)
    (x : String) :
    ∀ (cs : List (List String)) (i : Nat) (res : List (String × Metrics)),
      x ∉ cs.flatten →
      dictFind (runFrom api i cs res).results x = dictFind res x := by
  intro cs
  induction cs with
  | nil => intro i res _; rfl
  | cons b bs ih =>
    intro i res h
    rw [List.flatten_cons] at h
    have hb : x ∉ b := fun hmem => h (List.mem_append.mpr (Or.inl hmem))
    have hbs : x ∉ bs.flatten := fun hmem => h (List.mem_append.mpr (Or.inr hmem))
    show dictFind (runFrom api (i + 1) bs (processChunk res b (api i b))).results x = _
    rw [ih (i + 1) _ hbs]
    exact find_processChunk_skip res b (api i b) x hb
      (fun items heq it hit => hok i b items heq it hit)

theorem contains_runFrom (api : Nat → List String → ApiResult) (hok : apiOK api)
    (x : String) :
    ∀ (cs : List (List String)) (i : Nat) (res : List (String × Metrics)),
      (dictContains (runFrom api i cs res).results x = true ↔
        x ∈ cs.flatten ∨ dictContains res x = true) := by
  intro cs
  induction cs with
  | nil =>
    intro i res
    simp [runFrom]
  | cons b bs ih =>
    intro i res
    have hstep : dictContains (processChunk res b (api i b)) x = true ↔
        x ∈ b ∨ dictContains res x = true := by
      constructor
      · intro hc
        by_cases hxb : x ∈ b
        · exact Or.inl hxb
        · right
          rw [dictContains_eq_isSome] at hc ⊢
          rw [find_processChunk_skip res b (api i b) x hxb
            (fun items heq it hit => hok i b items heq it hit)] at hc
          exact hc
      · intro hc
        rw [dictContains_eq_isSome]
        rcases hc with hxb | hcr
        · exact isSome_find_processChunk res b (api i b) x hxb
        · rw [dictContains_eq_isSome] at hcr
          exact isSome_find_processChunk_mono res b (api i b) x hcr
    show dictContains (runFrom api (i + 1) bs (processChunk res b (api i b))).results x
        = true ↔ _
    rw [ih (i + 1) (processChunk res b (api i b)), hstep, List.flatten_cons]
    constructor
    · rintro (h | h | h)
      · exact Or.inl (List.mem_append.mpr (Or.inr h))
      · exact Or.inl (List.mem_append.mpr (Or.inl h))
      · exact Or.inr h
    · rintro (h | h)
      · rcases List.mem_append.mp h with h2 | h2
        · exact Or.inr (Or.inl h2)
        · exact Or.inl h2
      · exact Or.inr (Or.inr h)

theorem keys_nodup_runFrom (api : Nat → List String → ApiResult) :
    ∀ (cs : List (List String)) (i : Nat) (res : List (String × Metrics)),
      (dictKeys res).Nodup → (dictKeys (runFrom api i cs res).results).Nodup := by
  intro cs
  induction cs with
  | nil => intro i res h; exact h
  | cons b bs ih =>
    intro i res h
    exact ih (i + 1) _ (keys_nodup_processChunk res b (api i b) h)

theorem find_runFrom_at (api : Nat → List String → ApiResult) (hok : apiOK api)
    (l₁ : List (List String)) (b : List String) (l₂ : List (List String)) (x : String)
    (hb : x ∈ b) (h1 : x ∉ l₁.flatten) (h2 : x ∉ l₂.flatten)
    (i : Nat) (res : List (String × Metrics)) (hres : dictFind res x = none) :
    dictFind (runFrom api i (l₁ ++ b :: l₂) res).results x =
      chunkOutcome (api (i + l₁.length) b) b x := by
  rw [runFrom_results_append]
  have hres1 : dictFind (runFrom api i l₁ res).results x = none := by
    rw [find_runFrom_skip api hok x l₁ i res h1]
    exact hres
  show dictFind (runFrom api (i + l₁.length + 1) l₂
      (processChunk (runFrom api i l₁ res).results b (api (i + l₁.length) b))).results x = _
  rw [find_runFrom_skip api hok x l₂ _ _ h2]
  cases hr : api (i + l₁.length) b with
  | ok items =>
    rw [find_processChunk_ok _ _ _ _ hb]
    rfl
  | error st c =>
    rw [find_processChunk_err, if_pos ⟨hb, hres1⟩]
    rfl

theorem mem_flatten_nodup_decomp (x : String) :
    ∀ (L : List (List String)), L.flatten.Nodup → x ∈ L.flatten →
      ∃ l₁ b l₂, L = l₁ ++ b :: l₂ ∧ x ∈ b ∧ x ∉ l₁.flatten ∧ x ∉ l₂.flatten := by
  intro L
  induction L with
  | nil => intro _ hx; simp at hx
  | cons b rest ih =>
    intro hnd hx
    rw [List.flatten_cons] at hx hnd
    by_cases hxb : x ∈ b
    · refine ⟨[], b, rest, rfl, hxb, by simp, ?_⟩
      exact fun hmem => (List.nodup_append.mp hnd).2.2 hxb hmem
    · have hxrest : x ∈ rest.flatten := by
        rcases List.mem_append.mp hx with h | h
        · exact absurd h hxb
        · exact h
      rcases ih (List.nodup_append.mp hnd).2.1 hxrest with ⟨l₁, b', l₂, hL, hxb', hl1, hl2⟩
      refine ⟨b :: l₁, b', l₂, by simp [hL], hxb', ?_, hl2⟩
      rw [List.flatten_cons]
      intro hmem
      rcases List.mem_append.mp hmem with h | h
      · exact hxb h
      · exact hl1 h

/-
Outcome-shape invariant (for the success / not-found / error split):
every record ever stored is either a success record (error = None) or an
error record whose message is non-empty and whose data fields are all at
the documented placeholders.
-/

/-- All six data fields (and the duration) hold the documented
placeholders: "N/A" for text fields, "0" for count fields. -/
def placeholderFields (m : Metrics) : Prop :=
  m.title = "N/A" ∧ m.channel_name = "N/A" ∧ m.upload_date = "N/A" ∧
    m.view_count = "0" ∧ m.like_count = "0" ∧ m.comment_count = "0" ∧
    m.duration = "N/A"

/-- The invariant satisfied by every stored outcome record. -/
def outcomeOK (m : Metrics) : Prop :=
  m.error = none ∨ ∃ s, m.error = some s ∧ ¬ s = "" ∧ placeholderFields m

theorem outcomeOK_success (it : Item) : outcomeOK (successOutcome it) :=
  Or.inl rfl

theorem outcomeOK_notFound : outcomeOK notFoundOutcome :=
  Or.inr ⟨"Video not found (may be deleted or private)", rfl, by decide,
    rfl, rfl, rfl, rfl, rfl, rfl, rfl⟩

theorem errorOutcome_msg_ne (st : Nat) (c : String) :
    ¬ ("API Error: " ++ toString st ++ " - " ++ c) = "" := by
  intro h
  have h2 := congrArg String.length h
  rw [String.length_append, String.length_append, String.length_append] at h2
  have hl : ("API Error: ").length = 11 := rfl
  have hl2 : (" - ").length = 3 := rfl
  have hl3 : ("" : String).length = 0 := rfl
  omega

theorem outcomeOK_error (st : Nat) (c : String) : outcomeOK (errorOutcome st c) :=
  Or.inr ⟨"API Error: " ++ toString st ++ " - " ++ c, rfl, errorOutcome_msg_ne st c,
    rfl, rfl, rfl, rfl, rfl, rfl, rfl⟩

/-- All values of a metrics dict satisfy the outcome invariant. -/
def dictValuesOK (m : List (String × Metrics)) : Prop :=
  ∀ x w, dictFind m x = some w → outcomeOK w

theorem dictValuesOK_set (m : List (String × Metrics)) (k : String) (v : Metrics)
    (hm : dictValuesOK m) (hv : outcomeOK v) : dictValuesOK (dictSet m k v) := by
  intro x w h
  rcases dictFind_value_cases m k v x w h with h1 | h1
  · exact h1 ▸ hv
  · exact hm x w h1

theorem valuesOK_processChunk (res : List (String × Metrics)) (batch : List String)
    (r : ApiResult) (h : dictValuesOK res) : dictValuesOK (processChunk res batch r) := by
  cases r with
  | ok items =>
    simp only [processChunk]
    refine foldl_inv dictValuesOK _ ?_ batch _
      (foldl_inv dictValuesOK _ ?_ items res h)
    · intro m vid hm
      by_cases hv : vid ∈ items.map (fun it => it.id)
      · rw [if_pos hv]
        exact hm
      · rw [if_neg hv]
        exact dictValuesOK_set _ _ _ hm outcomeOK_notFound
    · intro m it hm
      exact dictValuesOK_set _ _ _ hm (outcomeOK_success it)
  | error st c =>
    simp only [processChunk]
    refine foldl_inv dictValuesOK _ ?_ batch res h
    intro m vid hm
    by_cases hv : dictContains m vid = true
    · rw [if_pos hv]
      exact hm
    · rw [if_neg hv]
      exact dictValuesOK_set _ _ _ hm (outcomeOK_error st c)

theorem valuesOK_runFrom (api : Nat → List String → ApiResult) :
    ∀ (cs : List (List String)) (i : Nat) (res : List (String × Metrics)),
      dictValuesOK res → dictValuesOK (runFrom api i cs res).results := by
  intro cs
  induction cs with
  | nil => intro i res h; exact h
  | cons b bs ih =>
    intro i res h
    exact ih (i + 1) _ (valuesOK_processChunk res b (api i b) h)

/-
The final record stored for an identifier, in terms of the chunks that
contain it.
-/

theorem okOutcome_isSome (items : List Item) (batch : List String) (x : String)
    (hx : x ∈ batch) : (okOutcome items batch x).isSome = true := by
  unfold okOutcome
  rcases h : items.reverse.find? (fun it => it.id == x) with _ | it' <;> simp [h, hx]

theorem chunkOutcome_isSome (r : ApiResult) (batch : List String) (x : String)
    (hx : x ∈ batch) : (chunkOutcome r batch x).isSome = true := by
  cases r with
  | ok items => exact okOutcome_isSome items batch x hx
  | error st c => rfl

theorem find_processChunk_fresh (res : List (String × Metrics)) (batch : List String)
    (r : ApiResult) (x : String) (hx : x ∈ batch) (hres : dictFind res x = none) :
    dictFind (processChunk res batch r) x = chunkOutcome r batch x := by
  cases r with
  | ok items => exact find_processChunk_ok res batch items x hx
  | error st c =>
    rw [find_processChunk_err, if_pos ⟨hx, hres⟩]
    rfl

theorem find_runFrom_two (api : Nat → List String → ApiResult) (hok : apiOK api)
    (l₁ : List (List String)) (b₁ : List String) (l₂ : List (List String))
    (b₂ : List String) (l₃ : List (List String)) (x : String)
    (hb₁ : x ∈ b₁) (hb₂ : x ∈ b₂)
    (h1 : x ∉ l₁.flatten) (h2 : x ∉ l₂.flatten) (h3 : x ∉ l₃.flatten) :
    dictFind (runFrom api 0 (l₁ ++ b₁ :: (l₂ ++ b₂ :: l₃)) []).results x =
      match api (l₁.length + 1 + l₂.length) b₂ with
      | ApiResult.ok items₂ => okOutcome items₂ b₂ x
      | ApiResult.error _ _ => chunkOutcome (api l₁.length b₁) b₁ x := by
  rw [runFrom_results_append]
  have hres1 : dictFind (runFrom api 0 l₁ []).results x = none := by
    rw [find_runFrom_skip api hok x l₁ 0 [] h1]
    rfl
  show dictFind (runFrom api (0 + l₁.length + 1) (l₂ ++ b₂ :: l₃)
      (processChunk (runFrom api 0 l₁ []).results b₁ (api (0 + l₁.length) b₁))).results x = _
  rw [runFrom_results_append]
  have hzero : 0 + l₁.length = l₁.length := Nat.zero_add _
  rw [hzero]
  have hd1 : dictFind (processChunk (runFrom api 0 l₁ []).results b₁
      (api l₁.length b₁)) x = chunkOutcome (api l₁.length b₁) b₁ x :=
    find_processChunk_fresh _ _ _ _ hb₁ hres1
  have hd2 : dictFind (runFrom api (l₁.length + 1) l₂
      (processChunk (runFrom api 0 l₁ []).results b₁ (api l₁.length b₁))).results x =
      chunkOutcome (api l₁.length b₁) b₁ x := by
    rw [find_runFrom_skip api hok x l₂ _ _ h2]
    exact hd1
  show dictFind (runFrom api (l₁.length + 1 + l₂.length + 1) l₃
      (processChunk _ b₂ (api (l₁.length + 1 + l₂.length) b₂))).results x = _
  rw [find_runFrom_skip api hok x l₃ _ _ h3]
  cases hr : api (l₁.length + 1 + l₂.length) b₂ with
  | ok items₂ =>
    rw [find_processChunk_ok _ _ _ _ hb₂]
  | error st c =>
    rw [find_processChunk_err]
    have hnn : ¬ (dictFind (runFrom api (l₁.length + 1) l₂
        (processChunk (runFrom api 0 l₁ []).results b₁ (api l₁.length b₁))).results x
        = none) := by
      rw [hd2]
      exact Option.isSome_iff_ne_none.mp (chunkOutcome_isSome _ _ _ hb₁)
    rw [if_neg (fun hc => hnn hc.2)]
    exact hd2

/-- The chunk decomposition around any identifier of a duplicate-free
identifier list. -/
theorem pyChunks_decomp_of_mem (ids : List String) (hnd : ids.Nodup) (x : String)
    (hx : x ∈ ids) :
    ∃ l₁ b l₂, pyChunks 50 ids = l₁ ++ b :: l₂ ∧ x ∈ b ∧
      x ∉ l₁.flatten ∧ x ∉ l₂.flatten := by
  have hfl : (pyChunks 50 ids).flatten = ids := flatten_pyChunks 50 (by norm_num) ids
  exact mem_flatten_nodup_decomp x (pyChunks 50 ids) (by rw [hfl]; exact hnd)
    (by rw [hfl]; exact hx)

theorem getElem_of_decomp {α : Type} (L l₁ l₂ : List α) (b : α) (h : L = l₁ ++ b :: l₂)
    (hlt : l₁.length < L.length) : L.get ⟨l₁.length, hlt⟩ = b := by
  subst h
  rw [List.get_eq_getElem, List.getElem_append_right (le_refl _)]
  simp

/-- The record finally stored for an identifier that occurs in exactly one
chunk. -/
theorem find_gvm_at (ids : List String) (api : Nat → List String → ApiResult)
    (hok : apiOK api) (l₁ : List (List String)) (b : List String)
    (l₂ : List (List String)) (x : String)
    (hchunks : pyChunks 50 ids = l₁ ++ b :: l₂) (hb : x ∈ b)
    (h1 : x ∉ l₁.flatten) (h2 : x ∉ l₂.flatten) :
    dictFind (get_video_metrics ids api).results x =
      chunkOutcome (api l₁.length b) b x := by
  unfold get_video_metrics
  rw [hchunks, find_runFrom_at api hok l₁ b l₂ x hb h1 h2 0 [] rfl, Nat.zero_add]

/-
Lemmas about the shorts-pattern scan and the branch order of
extract_video_id.
-/

theorem shortsCapture_cons (c : Char) (cs : List Char) :
    shortsCapture (c :: cs) =
      if ("/shorts/".data).isPrefixOf (c :: cs) then
        (if (((c :: cs).drop 8).takeWhile isIdChar).isEmpty then shortsCapture cs
         else some (((c :: cs).drop 8).takeWhile isIdChar))
      else shortsCapture cs := rfl

theorem containsChars_cons (pat : List Char) (c : Char) (tail : List Char) :
    containsChars pat (c :: tail) =
      (pat.isPrefixOf (c :: tail) || containsChars pat tail) := rfl

theorem containsChars_of_prefix (pat s : List Char) (h : pat <+: s) :
    containsChars pat s = true := by
  cases s with
  | nil =>
    have hp : pat = [] := List.prefix_nil.mp h
    subst hp
    rfl
  | cons c cs =>
    rw [containsChars_cons, Bool.or_eq_true]
    exact Or.inl (List.isPrefixOf_iff_prefix.mpr h)

theorem prefix_take_of_prefix {l s : List Char} (h : l <+: s) (n : Nat)
    (hn : l.length ≤ n) : l <+: s.take n := by
  rcases h with ⟨t, rfl⟩
  rw [List.take_append_eq_append_take, List.take_of_length_le hn]
  exact ⟨_, rfl⟩

/-- Whether the first character is in the identifier class (used to state
that the maximal run stops at the given point). -/
def headIsIdChar : List Char → Bool
  | [] => false
  | c :: _ => isIdChar c

theorem takeWhile_append_exact (idStr suf : List Char)
    (hall : idStr.all isIdChar = true) (hsuf : headIsIdChar suf = false) :
    (idStr ++ suf).takeWhile isIdChar = idStr := by
  induction idStr with
  | nil =>
    cases suf with
    | nil => rfl
    | cons c cs =>
      simp only [headIsIdChar] at hsuf
      simp [List.takeWhile_cons, hsuf]
  | cons c cs ih =>
    simp only [List.all_cons, Bool.and_eq_true] at hall
    simp [List.takeWhile_cons, hall.1, ih hall.2]

theorem shortsCapture_exact (pre idStr suf : List Char)
    (hfirst : containsChars ("/shorts/".data) (pre ++ "/shorts".data) = false)
    (hne : idStr.isEmpty = false) (hall : idStr.all isIdChar = true)
    (hsuf : headIsIdChar suf = false) :
    shortsCapture (pre ++ ("/shorts/".data ++ (idStr ++ suf))) = some idStr := by
  induction pre with
  | nil =>
    show shortsCapture ('/' :: ("shorts/".data ++ (idStr ++ suf))) = some idStr
    rw [shortsCapture_cons]
    have hpref : ("/shorts/".data).isPrefixOf
        ('/' :: ("shorts/".data ++ (idStr ++ suf))) = true := by
      rw [List.isPrefixOf_iff_prefix]
      exact ⟨idStr ++ suf, rfl⟩
    rw [if_pos hpref]
    have hdrop : (('/' :: ("shorts/".data ++ (idStr ++ suf)))).drop 8 = idStr ++ suf := rfl
    rw [hdrop, takeWhile_append_exact idStr suf hall hsuf]
    simp [hne]
  | cons c cs ih =>
    show shortsCapture (c :: (cs ++ ("/shorts/".data ++ (idStr ++ suf)))) = some idStr
    have hfirstcs : containsChars ("/shorts/".data) (cs ++ "/shorts".data) = false := by
      have h2 : containsChars ("/shorts/".data)
          (c :: (cs ++ "/shorts".data)) = false := hfirst
      rw [containsChars_cons, Bool.or_eq_false_iff] at h2
      exact h2.2
    have hnotpref : ("/shorts/".data).isPrefixOf
        (c :: (cs ++ ("/shorts/".data ++ (idStr ++ suf)))) = false := by
      by_contra hcon
      rw [Bool.not_eq_false, List.isPrefixOf_iff_prefix] at hcon
      have hlen : ("/shorts/".data).length ≤ (c :: cs).length + 7 := by
        simp
      have htake := prefix_take_of_prefix hcon ((c :: cs).length + 7) hlen
      have heqtake : (c :: (cs ++ ("/shorts/".data ++ (idStr ++ suf)))).take
          ((c :: cs).length + 7) = (c :: cs) ++ "/shorts".data := by
        show ((c :: cs) ++ ("/shorts/".data ++ (idStr ++ suf))).take
          ((c :: cs).length + 7) = _
        rw [List.take_append_eq_append_take, List.take_of_length_le (by simp)]
        congr 1
        rw [Nat.add_sub_cancel_left, List.take_append_of_le_length (by norm_num)]
        rfl
      rw [heqtake] at htake
      have hcontra := containsChars_of_prefix _ _ htake
      rw [hcontra] at hfirst
      exact Bool.noConfusion hfirst
    rw [shortsCapture_cons, if_neg (by rw [hnotpref]; exact Bool.false_ne_true)]
    exact ih hfirstcs

theorem shortsCapture_isSome (a : List Char) (c : Char) (rest : List Char)
    (hc : isIdChar c = true) :
    (shortsCapture (a ++ ("/shorts/".data ++ (c :: rest)))).isSome = true := by
  induction a with
  | nil =>
    show (shortsCapture ('/' :: ("shorts/".data ++ (c :: rest)))).isSome = true
    rw [shortsCapture_cons]
    have hpref : ("/shorts/".data).isPrefixOf
        ('/' :: ("shorts/".data ++ (c :: rest))) = true := by
      rw [List.isPrefixOf_iff_prefix]
      exact ⟨c :: rest, rfl⟩
    rw [if_pos hpref]
    have hdrop : (('/' :: ("shorts/".data ++ (c :: rest)))).drop 8 = c :: rest := rfl
    rw [hdrop, List.takeWhile_cons, hc]
    simp
  | cons a0 as ih =>
    show (shortsCapture (a0 :: (as ++ ("/shorts/".data ++ (c :: rest))))).isSome = true
    rw [shortsCapture_cons]
    by_cases hp : ("/shorts/".data).isPrefixOf
        (a0 :: (as ++ ("/shorts/".data ++ (c :: rest)))) = true
    · rw [if_pos hp]
      by_cases hrun : (((a0 :: (as ++ ("/shorts/".data ++ (c :: rest)))).drop 8).takeWhile
          isIdChar).isEmpty = true
      · rw [if_pos hrun]
        exact ih
      · rw [if_neg hrun]
        rfl
    · rw [if_neg hp]
      exact ih

theorem extract_shorts_branch (url : String) (run : List Char)
    (hs : shortsCapture url.data = some run) :
    extract_video_id url = some (String.mk run) := by
  unfold extract_video_id
  rw [hs]

theorem extract_youtuBe_branch (url : String) (hs : shortsCapture url.data = none)
    (hy : containsStr url "youtu.be/" = true) :
    extract_video_id url = youtuBeRule url := by
  unfold extract_video_id
  rw [hs, if_pos hy]

theorem extract_watch_branch (url : String) (hs : shortsCapture url.data = none)
    (hy : containsStr url "youtu.be/" = false)
    (hw : containsStr url "youtube.com/watch" = true) :
    extract_video_id url = watchRule url := by
  unfold extract_video_id
  rw [hs, if_neg (by rw [hy]; exact Bool.false_ne_true), if_pos hw]

/-
Report-builder lemmas (the join-and-sort step of main) and the key-set of
the fetch result.
-/

instance : IsTotal ReportRow rowLE :=
  ⟨fun a b => le_total a.upload_date b.upload_date⟩

instance : IsTrans ReportRow rowLE :=
  ⟨fun _ _ _ h1 h2 => le_trans h1 h2⟩

theorem length_build_report (metrics : List (String × Metrics))
    (idMap : List (String × InputRecord)) :
    (build_report metrics idMap).length = metrics.length := by
  unfold build_report
  rw [List.length_insertionSort, List.length_map]

theorem sorted_build_report (metrics : List (String × Metrics))
    (idMap : List (String × InputRecord)) :
    (build_report metrics idMap).Pairwise
      (fun a b => a.upload_date ≤ b.upload_date) :=
  List.sorted_insertionSort rowLE _

/-- The key set of the fetch result is exactly the distinct input
identifiers (as a permutation of the deduplicated input list). -/
theorem keys_gvm_perm_dedup (ids : List String) (api : Nat → List String → ApiResult)
    (hok : apiOK api) :
    (dictKeys (get_video_metrics ids api).results).Perm ids.dedup := by
  have hnodupKeys : (dictKeys (get_video_metrics ids api).results).Nodup :=
    keys_nodup_runFrom api _ 0 [] (by simp [dictKeys])
  refine (List.perm_ext_iff_of_nodup hnodupKeys (List.nodup_dedup ids)).mpr ?_
  intro a
  rw [List.mem_dedup, mem_dictKeys]
  unfold get_video_metrics
  rw [contains_runFrom api hok a (pyChunks 50 ids) 0 []]
  rw [flatten_pyChunks 50 (by norm_num) ids]
  simp [dictContains]

theorem gvm_results_length (ids : List String) (api : Nat → List String → ApiResult)
    (hok : apiOK api) :
    (get_video_metrics ids api).results.length = ids.dedup.length := by
  have h := (keys_gvm_perm_dedup ids api hok).length_eq
  simpa [dictKeys] using h

/-
Concrete fixtures used by the witness and counterexample theorems.
-/

/-- A response item for identifier "a" with no optional fields. -/
def cxItemA : Item := ⟨"a", ⟨none, none, none⟩, ⟨none, none, none⟩, ⟨none⟩⟩

/-- 51 identifiers, "a" occurring first and last (so "a" lands both in
chunk 0 and in chunk 1). -/
def cxIds51 : List String :=
  "a" :: ((List.range 49).map (fun i => String.mk [Char.ofNat 66, Char.ofNat (66 + i)])) ++
    ["a"]

/-- A service that answers the request containing "a" as call number 0
with one item and fails every other request with a 403. -/
def cxApi51 : Nat → List String → ApiResult :=
  fun i b =>
    if "a" ∈ b ∧ i = 0 then ApiResult.ok [cxItemA] else ApiResult.error 403 "quota"

theorem cxApi51_ok : apiOK cxApi51 := by
  intro i b items h it hit
  by_cases hc : "a" ∈ b ∧ i = 0
  · simp only [cxApi51] at h
    rw [if_pos hc] at h
    cases h
    rw [List.mem_singleton] at hit
    subst hit
    exact hc.1
  · simp only [cxApi51] at h
    rw [if_neg hc] at h
    exact ApiResult.noConfusion h

/-- A service that fails every request. -/
def cxApiErr : Nat → List String → ApiResult :=
  fun _ _ => ApiResult.error 403 "quota"

theorem cxApiErr_ok : apiOK cxApiErr :=
  fun _ _ _ h => ApiResult.noConfusion h

/-- A service that always succeeds with an empty item list. -/
def cxApiEmpty : Nat → List String → ApiResult :=
  fun _ _ => ApiResult.ok []

theorem cxApiEmpty_ok : apiOK cxApiEmpty := by
  intro i b items h it hit
  cases h
  exact absurd hit (List.not_mem_nil it)

/-- A response item for identifier "dup1" with full metrics. -/
def cxItemDup : Item :=
  ⟨"dup1", ⟨some "T", some "C", some "2024-01-01"⟩, ⟨some "5", none, none⟩, ⟨some "PT1M"⟩⟩

/-- A service recognizing "dup1". -/
def cxApiDup : Nat → List String → ApiResult :=
  fun _ b => if "dup1" ∈ b then ApiResult.ok [cxItemDup] else ApiResult.error 500 "x"

/-- Two input rows whose URLs resolve to the same identifier. -/
def cxVideosDup : List InputRecord :=
  [⟨"Alice", "https://youtu.be/dup1"⟩, ⟨"Bob", "https://youtu.be/dup1"⟩]

/-
The claims.
-/

/-- C1: for every list of pairwise-distinct identifiers, get_video_metrics
returns a mapping whose key set is exactly those identifiers (stated as a
permutation between the dict keys and the input list), and it issues
exactly ceil(N/50) remote requests — the requests issued are precisely the
consecutive chunks of at most 50 elements into which the input is sliced,
preserving input order within and across chunks (their concatenation is
the input list itself). Assumes the service only returns items for
requested identifiers (apiOK). -/
theorem claim_C1 (ids : List String) (api : Nat → List String → ApiResult)
    (hnd : ids.Nodup) (hok : apiOK api) :
    (dictKeys (get_video_metrics ids api).results).Perm ids ∧
    (get_video_metrics ids api).requests = pyChunks 50 ids ∧
    (get_video_metrics ids api).requests.length = (ids.length + 49) / 50 ∧
    (pyChunks 50 ids).flatten = ids ∧
    (∀ c ∈ pyChunks 50 ids, c.length ≤ 50) := by
  have hreq : (get_video_metrics ids api).requests = pyChunks 50 ids :=
    runFrom_requests api _ 0 []
  refine ⟨?_, hreq, ?_, flatten_pyChunks 50 (by norm_num) ids,
    fun c hc => (mem_pyChunks50 ids c hc).1⟩
  · have h := keys_gvm_perm_dedup ids api hok
    rwa [List.Nodup.dedup hnd] at h
  · rw [hreq, length_pyChunks50]

theorem claim_C1_witness :
    (dictKeys (get_video_metrics ["a", "b"] cxApiErr).results).Perm ["a", "b"] ∧
    (get_video_metrics ["a", "b"] cxApiErr).requests.length = 1 := by
  have h := claim_C1 ["a", "b"] cxApiErr (by decide) cxApiErr_ok
  refine ⟨h.1, ?_⟩
  rw [h.2.2.1]
  decide

/-- C2: every record in the mapping returned by get_video_metrics is
exactly one of: a success record whose error field is None (with all data
fields present as strings, never null — string fields are total in this
embedding), or an error record whose error field is a non-empty string and
whose data fields all hold the documented placeholders ("N/A" for text
fields, "0" for count fields). -/
theorem claim_C2 (ids : List String) (api : Nat → List String → ApiResult)
    (x : String) (m : Metrics)
    (h : dictFind (get_video_metrics ids api).results x = some m) :
    (m.error = none ∧ ¬ ∃ s, m.error = some s ∧ ¬ s = "" ∧ placeholderFields m) ∨
    ((¬ m.error = none) ∧ ∃ s, m.error = some s ∧ ¬ s = "" ∧ placeholderFields m) := by
  have hvals : dictValuesOK (get_video_metrics ids api).results :=
    valuesOK_runFrom api _ 0 [] (fun y w hw => by simp [dictFind] at hw)
  rcases hvals x m h with h1 | ⟨s, hs, hsn, hpf⟩
  · left
    refine ⟨h1, ?_⟩
    rintro ⟨s, hss, _, _⟩
    rw [h1] at hss
    exact Option.noConfusion hss
  · right
    refine ⟨?_, s, hs, hsn, hpf⟩
    rw [hs]
    exact fun hc => Option.noConfusion hc

theorem claim_C2_witness :
    ((errorOutcome 403 "quota").error = none ∧
      ¬ ∃ s, (errorOutcome 403 "quota").error = some s ∧ ¬ s = "" ∧
        placeholderFields (errorOutcome 403 "quota")) ∨
    ((¬ (errorOutcome 403 "quota").error = none) ∧
      ∃ s, (errorOutcome 403 "quota").error = some s ∧ ¬ s = "" ∧
        placeholderFields (errorOutcome 403 "quota")) :=
  claim_C2 ["a"] cxApiErr "a" (errorOutcome 403 "quota") rfl

/-- C5: in a successfully queried chunk, every requested identifier the
response does not include is stored with the not-found record: all data
fields at placeholders and the error string exactly
"Video not found (may be deleted or private)". Assumes distinct
identifiers and a service that only returns requested identifiers. -/
theorem claim_C5 (ids : List String) (api : Nat → List String → ApiResult)
    (hnd : ids.Nodup) (hok : apiOK api)
    (k : Nat) (hk : k < (pyChunks 50 ids).length) (items : List Item)
    (hsucc : api k ((pyChunks 50 ids).get ⟨k, hk⟩) = ApiResult.ok items)
    (x : String) (hx : x ∈ (pyChunks 50 ids).get ⟨k, hk⟩)
    (hmiss : x ∉ items.map (fun it => it.id)) :
    dictFind (get_video_metrics ids api).results x = some notFoundOutcome ∧
    notFoundOutcome.error = some "Video not found (may be deleted or private)" ∧
    placeholderFields notFoundOutcome := by
  have hfl : (pyChunks 50 ids).flatten = ids := flatten_pyChunks 50 (by norm_num) ids
  have hndfl : (pyChunks 50 ids).flatten.Nodup := by rw [hfl]; exact hnd
  have hdecomp : pyChunks 50 ids = (pyChunks 50 ids).take k ++
      ((pyChunks 50 ids).get ⟨k, hk⟩) :: (pyChunks 50 ids).drop (k + 1) := by
    rw [List.get_eq_getElem, ← List.drop_eq_getElem_cons hk, List.take_append_drop]
  have hsplit : x ∉ ((pyChunks 50 ids).take k).flatten ∧
      x ∉ ((pyChunks 50 ids).drop (k + 1)).flatten := by
    rw [hdecomp, List.flatten_append, List.flatten_cons] at hndfl
    rcases List.nodup_append.mp hndfl with ⟨hA, hBC, hdisj⟩
    rcases List.nodup_append.mp hBC with ⟨hB, hC, hdisj2⟩
    exact ⟨fun hmem => hdisj hmem (List.mem_append.mpr (Or.inl hx)),
      fun hmem => hdisj2 hx hmem⟩
  have hklen : ((pyChunks 50 ids).take k).length = k := by
    rw [List.length_take]
    omega
  have hfind := find_gvm_at ids api hok ((pyChunks 50 ids).take k)
    ((pyChunks 50 ids).get ⟨k, hk⟩) ((pyChunks 50 ids).drop (k + 1)) x
    hdecomp hx hsplit.1 hsplit.2
  rw [hklen, hsucc] at hfind
  have hfindnone : items.reverse.find? (fun it => it.id == x) = none := by
    rw [List.find?_eq_none]
    intro it hit hbe
    exact hmiss (List.mem_map.mpr ⟨it, List.mem_reverse.mp hit, beq_iff_eq.mp hbe⟩)
  have hpf : placeholderFields notFoundOutcome := ⟨rfl, rfl, rfl, rfl, rfl, rfl, rfl⟩
  refine ⟨?_, rfl, hpf⟩
  rw [hfind]
  show okOutcome items ((pyChunks 50 ids).get ⟨k, hk⟩) x = some notFoundOutcome
  unfold okOutcome
  rw [hfindnone, if_pos hx]

theorem claim_C5_witness :
    dictFind (get_video_metrics ["a"] cxApiEmpty).results "a" = some notFoundOutcome ∧
    notFoundOutcome.error = some "Video not found (may be deleted or private)" ∧
    placeholderFields notFoundOutcome :=
  claim_C5 ["a"] cxApiEmpty (by decide) cxApiEmpty_ok 0 (by decide) [] rfl "a"
    (by decide) (by decide)

/-- C8: the report built from the outcome mapping has exactly one row per
outcome entry (its length equals the number of entries), and it is sorted
non-decreasingly by the upload_date field under plain string comparison
(code-point lexicographic, which orders the "N/A" placeholder lexically
rather than chronologically). -/
theorem claim_C8 (metrics : List (String × Metrics))
    (idMap : List (String × InputRecord)) :
    (build_report metrics idMap).length = metrics.length ∧
    (build_report metrics idMap).Pairwise
      (fun a b => a.upload_date ≤ b.upload_date) :=
  ⟨length_build_report metrics idMap, sorted_build_report metrics idMap⟩

/-- C9 counterexample: with a missing credential file (or an empty one)
the process terminates with exit status 0, not a non-zero status — main
catches the exception and returns normally; moreover the empty-file
ValueError is swallowed without any message, so that case is not even
reported to the operator. -/
theorem claim_C9_counterexample :
    (mainModel none [⟨"A", "https://youtu.be/x"⟩] cxApiErr).exitCode = 0 ∧
    (mainModel (some " ") [⟨"A", "https://youtu.be/x"⟩]
      cxApiErr).configErrorReported = false :=
  ⟨rfl, rfl⟩

/-- C9 amended: if the credential file is missing or its stripped content
is empty, the run aborts before any remote call (no requests issued) and
produces no output file; the missing-file case prints an error message,
the empty-file case aborts silently; in both cases the process exits with
status 0 (main catches the exception and returns normally). -/
theorem claim_C9_amended (keyFile : Option String) (videos : List InputRecord)
    (api : Nat → List String → ApiResult) (s : String) :
    (keyFile = none → mainModel keyFile videos api =
      ⟨0, true, [], none⟩) ∧
    (keyFile = some s → pyStrip s = "" → mainModel keyFile videos api =
      ⟨0, false, [], none⟩) := by
  constructor
  · rintro rfl
    rfl
  · rintro rfl hs
    have hkey : read_api_key (some s) = Except.error KeyError.emptyKey := by
      simp only [read_api_key]
      rw [if_pos hs]
    unfold mainModel
    rw [hkey]

theorem claim_C9_amended_witness :
    mainModel none [] cxApiErr = ⟨0, true, [], none⟩ ∧
    mainModel (some " ") [] cxApiErr = ⟨0, false, [], none⟩ :=
  ⟨(claim_C9_amended none [] cxApiErr " ").1 rfl,
   (claim_C9_amended (some " ") [] cxApiErr " ").2 rfl rfl⟩

/-- C3: extract_video_id tries the three URL shapes in the fixed priority
order shorts, youtu.be, watch, the first matching rule determining the
result: (1) for every URL of the shape pre ++ "/shorts/" ++ id ++ suf —
with the designated "/shorts/" the first occurrence, id a non-empty run of
characters in [A-Za-z0-9_-], and suf not starting with such a character —
the result is exactly id, whatever else (youtu.be/, watch, ...) the URL
contains; (2) when the shorts pattern does not match, a URL containing
"youtu.be/" is resolved by the youtu.be rule; (3) when neither matches,
a URL containing "youtube.com/watch" is resolved by the watch rule. -/
theorem claim_C3 :
    (∀ pre idStr suf : String,
      containsChars ("/shorts/".data) (pre.data ++ "/shorts".data) = false →
      idStr.data.isEmpty = false →
      idStr.data.all isIdChar = true →
      headIsIdChar suf.data = false →
      extract_video_id (pre ++ "/shorts/" ++ idStr ++ suf) = some idStr) ∧
    (∀ url : String, shortsCapture url.data = none →
      containsStr url "youtu.be/" = true →
      extract_video_id url = youtuBeRule url) ∧
    (∀ url : String, shortsCapture url.data = none →
      containsStr url "youtu.be/" = false →
      containsStr url "youtube.com/watch" = true →
      extract_video_id url = watchRule url) := by
  refine ⟨?_, extract_youtuBe_branch, extract_watch_branch⟩
  intro pre idStr suf hfirst hne hall hsuf
  have hdata : (pre ++ "/shorts/" ++ idStr ++ suf).data
      = pre.data ++ ("/shorts/".data ++ (idStr.data ++ suf.data)) := by
    simp [String.data_append]
  have hcap : shortsCapture (pre ++ "/shorts/" ++ idStr ++ suf).data
      = some idStr.data := by
    rw [hdata]
    exact shortsCapture_exact pre.data idStr.data suf.data hfirst hne hall hsuf
  rw [extract_shorts_branch _ _ hcap]

theorem claim_C3_witness :
    extract_video_id ("https://www.youtube.com" ++ "/shorts/" ++ "abc123" ++ "?x=1")
      = some "abc123" ∧
    extract_video_id "https://youtu.be/xyz789" = youtuBeRule "https://youtu.be/xyz789" ∧
    extract_video_id "https://www.youtube.com/watch?v=q1"
      = watchRule "https://www.youtube.com/watch?v=q1" :=
  ⟨claim_C3.1 "https://www.youtube.com" "abc123" "?x=1" (by decide) (by decide)
      (by decide) (by decide),
   claim_C3.2.1 "https://youtu.be/xyz789" rfl rfl,
   claim_C3.2.2 "https://www.youtube.com/watch?v=q1" rfl rfl rfl⟩

/-- C10: rule selection in extract_video_id is by substring containment
only, never by host parsing: (1) every string containing "/shorts/"
followed by at least one character of [A-Za-z0-9_-] yields an identifier;
(2) the substring "youtu.be/" anywhere in the string (host need not be a
YouTube domain, the string need not be a well-formed URL) triggers the
youtu.be rule when the shorts pattern did not match; (3) likewise the
substring "youtube.com/watch" triggers the watch rule when neither earlier
rule fired. -/
theorem claim_C10 :
    (∀ (url : String) (a : List Char) (c : Char) (rest : List Char),
      url.data = a ++ ("/shorts/".data ++ (c :: rest)) → isIdChar c = true →
      (extract_video_id url).isSome = true) ∧
    (∀ url : String, shortsCapture url.data = none →
      containsStr url "youtu.be/" = true →
      extract_video_id url = youtuBeRule url) ∧
    (∀ url : String, shortsCapture url.data = none →
      containsStr url "youtu.be/" = false →
      containsStr url "youtube.com/watch" = true →
      extract_video_id url = watchRule url) := by
  refine ⟨?_, extract_youtuBe_branch, extract_watch_branch⟩
  intro url a c rest hdata hc
  rcases h : shortsCapture url.data with _ | run
  · exfalso
    have h2 := shortsCapture_isSome a c rest hc
    rw [← hdata, h] at h2
    simp at h2
  · unfold extract_video_id
    rw [h]
    rfl

theorem claim_C10_witness :
    (extract_video_id "x!/shorts/k9-").isSome = true ∧
    extract_video_id "http://evil.example/youtu.be/p"
      = youtuBeRule "http://evil.example/youtu.be/p" ∧
    extract_video_id "http://evil.example/youtube.com/watch?v=ok"
      = watchRule "http://evil.example/youtube.com/watch?v=ok" :=
  ⟨claim_C10.1 "x!/shorts/k9-" ("x!".data) 'k' ("9-".data) rfl rfl,
   claim_C10.2.1 "http://evil.example/youtu.be/p" rfl rfl,
   claim_C10.2.2 "http://evil.example/youtube.com/watch?v=ok" rfl rfl rfl⟩

/-- C4: when the request for one chunk fails with an error status, every
identifier of that chunk is stored with placeholder field values and an
error string embedding the failure status and the raw error body; no
retry is performed (the requests issued are exactly the chunks, each
appearing once); and the outcomes of identifiers in the other chunks are
unaffected (replacing the failed chunk's response by anything else leaves
them unchanged). Assumes distinct identifiers and a service that only
returns requested identifiers. -/
theorem claim_C4 (ids : List String) (api : Nat → List String → ApiResult)
    (hnd : ids.Nodup) (hok : apiOK api)
    (k : Nat) (hk : k < (pyChunks 50 ids).length) (st : Nat) (body : String)
    (herr : api k ((pyChunks 50 ids).get ⟨k, hk⟩) = ApiResult.error st body) :
    (∀ x ∈ (pyChunks 50 ids).get ⟨k, hk⟩,
      dictFind (get_video_metrics ids api).results x = some (errorOutcome st body)) ∧
    (errorOutcome st body).error =
      some ("API Error: " ++ toString st ++ " - " ++ body) ∧
    placeholderFields (errorOutcome st body) ∧
    (get_video_metrics ids api).requests = pyChunks 50 ids ∧
    (get_video_metrics ids api).requests.Nodup ∧
    (∀ api2 : Nat → List String → ApiResult, apiOK api2 →
      (∀ j, ¬ j = k → api2 j = api j) →
      ∀ x ∈ ids, x ∉ (pyChunks 50 ids).get ⟨k, hk⟩ →
        dictFind (get_video_metrics ids api2).results x =
          dictFind (get_video_metrics ids api).results x) := by
  have hfl : (pyChunks 50 ids).flatten = ids := flatten_pyChunks 50 (by norm_num) ids
  have hndfl : (pyChunks 50 ids).flatten.Nodup := by rw [hfl]; exact hnd
  have hpf : placeholderFields (errorOutcome st body) :=
    ⟨rfl, rfl, rfl, rfl, rfl, rfl, rfl⟩
  refine ⟨?_, rfl, hpf, runFrom_requests api _ 0 [], ?_, ?_⟩
  · intro x hx
    have hdecomp : pyChunks 50 ids = (pyChunks 50 ids).take k ++
        ((pyChunks 50 ids).get ⟨k, hk⟩) :: (pyChunks 50 ids).drop (k + 1) := by
      rw [List.get_eq_getElem, ← List.drop_eq_getElem_cons hk, List.take_append_drop]
    have hndfl2 := hndfl
    rw [hdecomp, List.flatten_append, List.flatten_cons] at hndfl2
    rcases List.nodup_append.mp hndfl2 with ⟨hA, hBC, hdisj⟩
    rcases List.nodup_append.mp hBC with ⟨hB, hC, hdisj2⟩
    have hklen : ((pyChunks 50 ids).take k).length = k := by
      rw [List.length_take]
      omega
    have hfind := find_gvm_at ids api hok ((pyChunks 50 ids).take k)
      ((pyChunks 50 ids).get ⟨k, hk⟩) ((pyChunks 50 ids).drop (k + 1)) x
      hdecomp hx (fun hmem => hdisj hmem (List.mem_append.mpr (Or.inl hx)))
      (fun hmem => hdisj2 hx hmem)
    rw [hklen, herr] at hfind
    exact hfind
  · have hreq : (get_video_metrics ids api).requests = pyChunks 50 ids :=
      runFrom_requests api _ 0 []
    rw [hreq]
    have hpair := (List.nodup_flatten.mp hndfl).2
    refine List.Pairwise.imp_of_mem ?_ hpair
    intro a b ha hb hdisj heq
    rcases List.exists_mem_of_ne_nil a (mem_pyChunks50 ids a ha).2 with ⟨y, hy⟩
    exact hdisj hy (heq ▸ hy)
  · intro api2 hok2 hag x hx hxk
    rcases pyChunks_decomp_of_mem ids hnd x hx with ⟨l₁, b, l₂, hch, hxb, hx1, hx2⟩
    have hjlt : l₁.length < (pyChunks 50 ids).length := by
      rw [hch, List.length_append, List.length_cons]
      omega
    have hgetb : (pyChunks 50 ids).get ⟨l₁.length, hjlt⟩ = b :=
      getElem_of_decomp (pyChunks 50 ids) l₁ l₂ b hch hjlt
    have hjk : ¬ l₁.length = k := by
      intro heq
      apply hxk
      have : (pyChunks 50 ids).get ⟨l₁.length, hjlt⟩ =
          (pyChunks 50 ids).get ⟨k, hk⟩ := by
        congr 1
        exact Fin.ext heq
      rw [← this, hgetb]
      exact hxb
    rw [find_gvm_at ids api hok l₁ b l₂ x hch hxb hx1 hx2,
      find_gvm_at ids api2 hok2 l₁ b l₂ x hch hxb hx1 hx2,
      hag l₁.length hjk]

theorem claim_C4_witness :
    dictFind (get_video_metrics ["a", "b"] cxApiErr).results "a"
      = some (errorOutcome 403 "quota") ∧
    (get_video_metrics ["a", "b"] cxApiErr).requests = [["a", "b"]] := by
  have h := claim_C4 ["a", "b"] cxApiErr (by decide) cxApiErr_ok 0 (by decide)
    403 "quota" rfl
  refine ⟨h.1 "a" (by decide), ?_⟩
  rw [h.2.2.2.1]
  rfl

/-- C6 counterexample: two input rows with URLs resolving to the same
identifier produce ONE output row, not two separate rows — main builds one
row per entry of the metrics dict, which is keyed by identifier. -/
theorem claim_C6_counterexample :
    ((mainModel (some "key") cxVideosDup cxApiDup).output.map List.length) = some 1 ∧
    ¬ ((mainModel (some "key") cxVideosDup cxApiDup).output.map List.length) = some 2 := by
  refine ⟨rfl, fun h => ?_⟩
  have h1 : ((mainModel (some "key") cxVideosDup cxApiDup).output.map List.length)
      = some 1 := rfl
  rw [h1] at h
  exact absurd h (by decide)

/-- C6 amended: when two input rows carry URLs that resolve to the same
identifier, the final report contains a single row for that identifier
rather than two; in general the report holds exactly one row per DISTINCT
extracted identifier (the output row count equals the length of the
deduplicated identifier list). -/
theorem claim_C6_amended (s : String) (videos : List InputRecord)
    (api : Nat → List String → ApiResult) (hok : apiOK api)
    (hs : ¬ pyStrip s = "") (hne : (extractPhase videos).2.isEmpty = false) :
    ((mainModel (some s) videos api).output.map List.length) =
      some ((extractPhase videos).2.dedup.length) := by
  have hkey : read_api_key (some s) = Except.ok (pyStrip s) := by
    simp only [read_api_key]
    rw [if_neg hs]
  have hlen : (build_report (get_video_metrics (extractPhase videos).2 api).results
      (extractPhase videos).1).length = (extractPhase videos).2.dedup.length := by
    rw [length_build_report, gvm_results_length _ _ hok]
  have hrows : (build_report (get_video_metrics (extractPhase videos).2 api).results
      (extractPhase videos).1).isEmpty = false := by
    have hids : (extractPhase videos).2 ≠ [] := by
      intro hc
      rw [hc] at hne
      exact Bool.noConfusion hne
    rcases List.exists_mem_of_ne_nil _ hids with ⟨y, hy⟩
    have hyd : y ∈ (extractPhase videos).2.dedup := List.mem_dedup.mpr hy
    rcases hcase : build_report (get_video_metrics (extractPhase videos).2 api).results
        (extractPhase videos).1 with _ | ⟨r, rows⟩
    · exfalso
      rw [hcase] at hlen
      have : (extractPhase videos).2.dedup = [] :=
        List.length_eq_zero.mp hlen.symm
      rw [this] at hyd
      exact absurd hyd (List.not_mem_nil y)
    · rfl
  simp only [mainModel, hkey, hne, Bool.false_eq_true, if_false, ite_false]
  rw [hrows]
  simp only [Bool.false_eq_true, ite_false]
  simp only [Option.map_some']
  rw [hlen]

theorem claim_C6_amended_witness :
    ((mainModel (some "key") cxVideosDup cxApiDup).output.map List.length) =
      some ((extractPhase cxVideosDup).2.dedup.length) := by
  have hok : apiOK cxApiDup := by
    intro i b items h it hit
    by_cases hc : "dup1" ∈ b
    · simp only [cxApiDup] at h
      rw [if_pos hc] at h
      cases h
      rw [List.mem_singleton] at hit
      subst hit
      exact hc
    · simp only [cxApiDup] at h
      rw [if_neg hc] at h
      exact ApiResult.noConfusion h
  exact claim_C6_amended "key" cxVideosDup cxApiDup hok (by decide) (by decide)

/-- C7 counterexample: the identifier "a" occurs in both chunks of
cxIds51; chunk 0 succeeds and chunk 1 — the LAST chunk that processes
"a" — fails with a 403, yet the stored outcome is the success record of
chunk 0, not the error record of the last chunk: last-write-wins does NOT
hold for the transport-error combination (the HttpError branch only
writes identifiers not already present). -/
theorem claim_C7_counterexample :
    (pyChunks 50 cxIds51).map (fun c => decide ("a" ∈ c)) = [true, true] ∧
    dictFind (get_video_metrics cxIds51 cxApi51).results "a"
      = some (successOutcome cxItemA) ∧
    ¬ dictFind (get_video_metrics cxIds51 cxApi51).results "a"
      = some (errorOutcome 403 "quota") := by
  refine ⟨rfl, rfl, fun h => ?_⟩
  have h1 : dictFind (get_video_metrics cxIds51 cxApi51).results "a"
      = some (successOutcome cxItemA) := rfl
  rw [h1] at h
  exact absurd h (by decide)

/-- C7 amended: no deduplication is performed — the concatenation of the
issued chunks is the input list itself, so an identifier occurring twice
is included in two queries (or twice in one); for an identifier occurring
in exactly two chunks, the stored outcome is the one produced by the LAST
chunk when that chunk's request succeeds (success or not-found), but when
the last request fails the outcome of the FIRST chunk survives (a
transport-error record is only written for identifiers not already
present, so it never overwrites). -/
theorem claim_C7_amended (ids : List String) (api : Nat → List String → ApiResult)
    (hok : apiOK api) (l₁ : List (List String)) (b₁ : List String)
    (l₂ : List (List String)) (b₂ : List String) (l₃ : List (List String)) (x : String)
    (hchunks : pyChunks 50 ids = l₁ ++ b₁ :: (l₂ ++ b₂ :: l₃))
    (hb₁ : x ∈ b₁) (hb₂ : x ∈ b₂)
    (h1 : x ∉ l₁.flatten) (h2 : x ∉ l₂.flatten) (h3 : x ∉ l₃.flatten) :
    (pyChunks 50 ids).flatten = ids ∧
    dictFind (get_video_metrics ids api).results x =
      (match api (l₁.length + 1 + l₂.length) b₂ with
       | ApiResult.ok items₂ => okOutcome items₂ b₂ x
       | ApiResult.error _ _ => chunkOutcome (api l₁.length b₁) b₁ x) := by
  refine ⟨flatten_pyChunks 50 (by norm_num) ids, ?_⟩
  unfold get_video_metrics
  rw [hchunks]
  exact find_runFrom_two api hok l₁ b₁ l₂ b₂ l₃ x hb₁ hb₂ h1 h2 h3

theorem claim_C7_amended_witness :
    (pyChunks 50 cxIds51).flatten = cxIds51 ∧
    dictFind (get_video_metrics cxIds51 cxApi51).results "a" =
      (match cxApi51 (List.length ([] : List (List String)) + 1 +
          List.length ([] : List (List String))) ["a"] with
       | ApiResult.ok items₂ => okOutcome items₂ ["a"] "a"
       | ApiResult.error _ _ =>
          chunkOutcome (cxApi51 (List.length ([] : List (List String)))
            (cxIds51.take 50)) (cxIds51.take 50) "a") :=
  claim_C7_amended cxIds51 cxApi51 cxApi51_ok [] (cxIds51.take 50) [] ["a"] [] "a"
    rfl (by decide) (by decide) (by simp) (by simp) (by simp)
